import Mathlib

/-!
Shallow embedding of the name/overload resolution core of
`src/ada/language/ast.py` (an Ada-like langkit grammar): the overload
matcher (`SubprogramSpec.match_param_list`, `is_matching_param_list`),
call-head detection (`BaseId.parent_callexpr`), candidate filtering
(`BaseId.env_elements`), type lookup (`BaseId.designated_type`) and the
`array_ndims` queries.  Pure data-shape declarations of the grammar that
carry no resolution behaviour are not embedded.  Lexical environment
lookups are supplied as explicit inputs (the ordered candidate list a
`get` returns), ancestor chains as explicit context lists, so that every
property of the python code becomes a total or `Option`-valued Lean
function.
-/

namespace AdaResolve

/-- Metadata attached to an entity by an environment lookup
(`@env_metadata class Metadata` in the source). -/
structure Metadata where
  dottable_subprogram : Bool
  implicit_deref : Bool
deriving Repr, DecidableEq

/-- `ParameterProfile`: the list of defining identifiers (their symbols) and
the optional default expression.  Only the presence of the default matters
for resolution (`is_mandatory = Self.default.is_null`), so the default is
embedded as `Option Unit`.  The `is_aliased`, `mode` and `type_expr` fields
play no role in the embedded properties and are omitted. -/
structure ParameterProfile where
  ids : List String
  default : Option Unit
deriving Repr, DecidableEq

/-- `ParameterProfile.is_mandatory = Self.default.is_null`. -/
def ParameterProfile.is_mandatory (p : ParameterProfile) : Bool :=
  p.default.isNone

/-- `SingleParameter` struct: one formal, pairing a defining identifier's
symbol with its parameter profile. -/
structure SingleParameter where
  name : String
  profile : ParameterProfile
deriving Repr, DecidableEq

/-- The designator of a `ParamAssoc`: the source stores an arbitrary node
and narrows it with `cast(Identifier)`, which fails on any other kind
(such as `OthersDesignator`). -/
inductive Designator where
  | identifier (sym : String)
  | othersDesignator
deriving Repr, DecidableEq

/-- `ParamAssoc`: one actual argument.  The `expr` field is never consulted
by the matcher and is omitted. -/
structure ParamAssoc where
  designator : Option Designator
deriving Repr, DecidableEq

/-- `ParamList`: the actual argument list of a call. -/
structure ParamList where
  params : List ParamAssoc
deriving Repr, DecidableEq

/-- `ParamMatch` struct: per actual argument, whether a formal was matched
and whether that formal is optional. -/
structure ParamMatch where
  has_matched : Bool
  is_formal_opt : Bool
deriving Repr, DecidableEq

/-- `SubprogramSpec`: only the `params` field (list of parameter profiles)
drives the matcher; `name` and `returns` are omitted. -/
structure SubprogramSpec where
  params : List ParameterProfile
deriving Repr, DecidableEq

/-- `typed_param_list`: `Self.params.mapcat(lambda profile:
profile.ids.map(lambda id: New(SingleParameter, name=id, profile=profile)))`. -/
def SubprogramSpec.typed_param_list (s : SubprogramSpec) : List SingleParameter :=
  s.params.flatMap (fun profile => profile.ids.map (fun id => ⟨id, profile⟩))

/-- `nb_min_params`: number of mandatory formals. -/
def SubprogramSpec.nb_min_params (s : SubprogramSpec) : Nat :=
  (s.typed_param_list.filter (fun p => p.profile.is_mandatory)).length

/-- `nb_max_params`: total number of formals. -/
def SubprogramSpec.nb_max_params (s : SubprogramSpec) : Nat :=
  s.typed_param_list.length

/-- `match_param_list`: for each `ParamAssoc` of the list (with its index),
whether a matching formal was found and whether that formal is optional.
Positional arguments (null designator) match the formal at the same ordinal
position; named arguments match the first formal whose name equals the
designator, when the designator is an `Identifier` at all. -/
def SubprogramSpec.match_param_list (s : SubprogramSpec) (params : ParamList) :
    List ParamMatch :=
  let typed_params := s.typed_param_list
  let no_match : ParamMatch := ⟨false, false⟩
  params.params.enum.map (fun ip =>
    match ip.2.designator with
    | none =>
      match typed_params.get? ip.1 with
      | some single_param => ⟨true, !single_param.profile.default.isNone⟩
      | none => no_match
    | some (Designator.identifier id) =>
      match typed_params.find? (fun p => p.name == id) with
      | some p => ⟨true, !p.profile.default.isNone⟩
      | none => no_match
    | some Designator.othersDesignator => no_match)

/-- `is_matching_param_list`: argument count within `nb_max_params`, every
actual matched, and exactly `nb_min_params` match records against a
non-optional formal. -/
def SubprogramSpec.is_matching_param_list (s : SubprogramSpec) (params : ParamList) :
    Bool :=
  let match_list := s.match_param_list params
  decide (params.params.length ≤ s.nb_max_params) &&
  match_list.all (fun m => m.has_matched) &&
  ((match_list.filter (fun m => !m.is_formal_opt)).length == s.nb_min_params)

/-- `ArrayIndices`: both concrete kinds (`UnconstrainedArrayIndices`,
`ConstrainedArrayIndices`) define `ndims = Self.list.length`; the elements
of the index list carry no further resolution behaviour. -/
inductive ArrayIndices where
  | unconstrainedArrayIndices (list : List Unit)
  | constrainedArrayIndices (list : List Unit)
deriving Repr, DecidableEq

/-- `ArrayIndices.ndims`. -/
def ArrayIndices.ndims : ArrayIndices → Nat
  | .unconstrainedArrayIndices list => list.length
  | .constrainedArrayIndices list => list.length

/-- `TypeDef` subclasses that settle `array_ndims` structurally.
`ArrayTypeDef` overrides the inherited `Literal(0)` with `indices.ndims`;
`IncompleteTypeDef` and `PrivateTypeDef` override nothing (the source
leaves a TODO there), so they fall to the base default.  `DerivedTypeDef`
(whose `array_ndims` delegates to resolving its parent-type name) is not
embedded: no embedded property consults it. -/
inductive TypeDef where
  | enumTypeDef (enum_literals : List String)
  | recordTypeDef
  | arrayTypeDef (indices : ArrayIndices)
  | signedIntTypeDef
  | modIntTypeDef
  | floatingPointDef
  | incompleteTypeDef (is_tagged : Bool)
  | privateTypeDef (abstract tagged limited : Bool)
  | accessDef
  | interfaceTypeDef
  | formalDiscreteTypeDef
deriving Repr, DecidableEq

/-- `TypeDef.array_ndims`: the `ArrayTypeDef` override, and the inherited
`Literal(0)` default for every other kind. -/
def TypeDef.array_ndims : TypeDef → Nat
  | .arrayTypeDef indices => indices.ndims
  | _ => 0

mutual

/-- `TypeDecl` concrete kinds: `FullTypeDecl` (ndims from its `type_def`)
and `SubtypeDecl` (ndims from its `type_expr`). -/
inductive TypeDecl where
  | fullTypeDecl (type_id : String) (type_def : TypeDef)
  | subtypeDecl (type_id : String) (type_expr : TypeExpression)

/-- `TypeExpression`: a null-exclusion flag and a `type_expr_variant`. -/
inductive TypeExpression where
  | mk (null_exclusion : Bool) (type_expr_variant : TypeExprVariant)

/-- `TypeExprVariant` kinds.  `TypeRef.designated_type` is an environment
lookup (`Self.node_env.eval_in_env(Self.name.designated_type)`); the
embedding stores that lookup's result directly (`none` when resolution
finds no type, which the source notes happens for incorrect code). -/
inductive TypeExprVariant where
  | typeRef (designated_type : Option TypeDecl)
  | subprogramAccessExpression
  | typeAccessExpression

end

mutual

/-- `FullTypeDecl.array_ndims = Self.type_def.array_ndims`;
`SubtypeDecl.array_ndims = Self.type_expr.array_ndims`. -/
def TypeDecl.array_ndims : TypeDecl → Nat
  | .fullTypeDecl _ type_def => type_def.array_ndims
  | .subtypeDecl _ type_expr => type_expr.array_ndims

/-- `TypeExpression.array_ndims = Self.type_expr_variant.array_ndims`. -/
def TypeExpression.array_ndims : TypeExpression → Nat
  | .mk _ v => v.array_ndims

/-- `TypeRef.array_ndims = designated_type.then(t.array_ndims, default 0)`;
`AccessExpression.array_ndims = Literal(0)`. -/
def TypeExprVariant.array_ndims : TypeExprVariant → Nat
  | .typeRef (some t) => t.array_ndims
  | .typeRef none => 0
  | .subprogramAccessExpression => 0
  | .typeAccessExpression => 0

end

/-- The node held by `ObjectDecl.type_expr`.  The grammar promises an
`ArrayTypeDef` or a `TypeExpression` there; the code treats anything else
as an internal bug (`cast_or_raise`).  `otherKindNode` stands for any
node of a third kind. -/
inductive ObjectDeclTypeExpr where
  | arrayTypeDefNode (indices : ArrayIndices)
  | typeExpressionNode (te : TypeExpression)
  | otherKindNode

/-- `ObjectDecl`: defining identifiers and the type expression field; the
remaining fields (`aliased`, `constant`, `inout`, `default_expr`,
`renaming_clause`, `aspects`) play no role in the embedded properties. -/
structure ObjectDecl where
  ids : List String
  type_expr : ObjectDeclTypeExpr

/-- `ObjectDecl.array_ndims`:
`Self.type_expr.cast(ArrayTypeDef).then(lambda a: a.array_ndims,
default_val=Self.type_expr.cast_or_raise(TypeExpression).array_ndims)`.
The `cast_or_raise` hard fault (PropertyError) is embedded as `none`. -/
def ObjectDecl.array_ndims (o : ObjectDecl) : Option Nat :=
  match o.type_expr with
  | .arrayTypeDefNode indices => some indices.ndims
  | .typeExpressionNode te => some te.array_ndims
  | .otherKindNode => none

/-- The node kinds `BaseId.parent_callexpr` discriminates among its
ancestors: `CallExpr` (fields `name`, `suffix`), `Prefix` (fields
`prefix`, `suffix`; called `dottedName` here), `BaseId`, the `ParamList`
child of a call, and any other node kind (statements, `ParamAssoc`,
type references, ...), abstracted by `otherNode` with a kind tag. -/
inductive ExprNode where
  | baseId (tok : String)
  | dottedName (pfxSide sfxSide : ExprNode)
  | callExpr (nm sfx : ExprNode)
  | paramListNode (pl : ParamList)
  | otherNode (kind : String)

/-- Which child slot of its parent a node occupies.  The python walk tests
node identity (`pfx.suffix == p`, `ce.name == p`); on a tree, a child is
that field exactly when it sits in that slot. -/
inductive ChildSlot where
  | dotLeft
  | dotRight
  | callName
  | callSuffix
  | otherSlot
deriving Repr, DecidableEq

/-- `p.is_a(CallExpr)`. -/
def isCallExprNode : ExprNode → Bool
  | .callExpr _ _ => true
  | _ => false

/-- `p.is_a(Prefix, BaseId)`. -/
def isDottedOrBaseId : ExprNode → Bool
  | .dottedName _ _ => true
  | .baseId _ => true
  | _ => false

/-- `p.parent.match(lambda pfx=Prefix: pfx.suffix == p, lambda ce=CallExpr:
ce.name == p, lambda _: False)`: the parent is a `Prefix` holding `p` as
its suffix, or a `CallExpr` holding `p` as its name. -/
def parentSideOk : ChildSlot → ExprNode → Bool
  | .dotRight, .dottedName _ _ => true
  | .callName, .callExpr _ _ => true
  | _, _ => false

/-- The walk of `BaseId.parent_callexpr` over `Self.parents` (which lists
the node itself first, then its ancestors innermost first): take ancestors
while each is a `CallExpr`, or is a `Prefix`/`BaseId` sitting in its
parent's suffix/name slot; return the first `CallExpr` so taken.  The
ancestor chain is passed as explicit context: for each step, the slot the
current node occupies and the parent node. -/
def parent_callexpr_walk : ExprNode → List (ChildSlot × ExprNode) → Option ExprNode
  | p, anc =>
    if isCallExprNode p then some p
    else if isDottedOrBaseId p then
      match anc with
      | (slot, par) :: rest =>
        if parentSideOk slot par then parent_callexpr_walk par rest else none
      | [] => none
    else none

/-- `BaseId.parent_callexpr` for an identifier with token `tok` whose
ancestor context is `anc`. -/
def BaseId.parent_callexpr (tok : String) (anc : List (ChildSlot × ExprNode)) :
    Option ExprNode :=
  parent_callexpr_walk (.baseId tok) anc

/-- The declaration node stored in a lexical-environment entry, narrowed to
the kinds `env_elements` discriminates: subprogram declarations
(`BasicSubprogramDecl` and its concrete subclasses) and bodies
(`SubprogramBody`), both carrying a `subp_spec`; `ObjectDecl`; `TypeDecl`;
any other `BasicDecl` kind; and nodes that are no `BasicDecl` at all. -/
inductive DeclNode where
  | basicSubprogramDecl (subp_spec : SubprogramSpec)
  | subprogramBody (subp_spec : SubprogramSpec)
  | objectDecl (o : ObjectDecl)
  | typeDecl (t : TypeDecl)
  | otherBasicDecl
  | nonDeclNode

/-- The inner `decl.match` of `env_elements`: the `subp_spec` of a
subprogram declaration or body, `No(SubprogramSpec)` otherwise. -/
def DeclNode.subpSpecOf : DeclNode → Option SubprogramSpec
  | .basicSubprogramDecl subp_spec => some subp_spec
  | .subprogramBody subp_spec => some subp_spec
  | _ => none

/-- One annotated element of an environment lookup (`EnvElement`): the node
and the lookup metadata. -/
structure EnvElement where
  el : DeclNode
  MD : Metadata

/-- The filter `env_elements` applies when the identifier is *not* the main
id of a `CallExpr`: keep a subprogram only when it is dottable with exactly
one mandatory parameter or has no mandatory parameter; keep every
non-subprogram (the `subp_spec.then(..., default_val=True)` branch for
other `BasicDecl`s, and the outer `lambda others: True`). -/
def noCallFilter (e : EnvElement) : Bool :=
  match e.el with
  | .basicSubprogramDecl ss =>
    (e.MD.dottable_subprogram && (ss.nb_min_params == 1)) || (ss.nb_min_params == 0)
  | .subprogramBody ss =>
    (e.MD.dottable_subprogram && (ss.nb_min_params == 1)) || (ss.nb_min_params == 0)
  | _ => true

/-- The per-candidate decision of the call-head branch of `env_elements`:
subprograms are kept when the actuals match their spec, `ObjectDecl`s when
their `array_ndims` equals the argument count (a hard fault of
`array_ndims` propagates, hence the `Option`), everything else is kept. -/
def callCandidateKeep (pl : ParamList) (e : EnvElement) : Option Bool :=
  match e.el with
  | .basicSubprogramDecl ss => some (ss.is_matching_param_list pl)
  | .subprogramBody ss => some (ss.is_matching_param_list pl)
  | .objectDecl o => o.array_ndims.map (fun n => n == pl.params.length)
  | _ => some true

/-- `items.filter` under the call-head branch, propagating a hard fault of
any candidate's `array_ndims`. -/
def filterCallCandidates (pl : ParamList) : List EnvElement → Option (List EnvElement)
  | [] => some []
  | e :: rest =>
    match callCandidateKeep pl e with
    | none => none
    | some b =>
      match filterCallCandidates pl rest with
      | none => none
      | some r => some (if b then e :: r else r)

/-- `BaseId.env_elements`: `items` is `Env.get(Self.tok)` (the candidate
entities in innermost-to-outermost order), `anc` the identifier's ancestor
context.  When the identifier heads no call, apply `noCallFilter`; when it
heads a `CallExpr` whose suffix is a `ParamList`, filter by the overload
matcher and array dimensionality; when the suffix is no `ParamList`,
return `items` unfiltered (`default_val=items`). -/
def BaseId.env_elements (tok : String) (anc : List (ChildSlot × ExprNode))
    (items : List EnvElement) : Option (List EnvElement) :=
  match BaseId.parent_callexpr tok anc with
  | none => some (items.filter noCallFilter)
  | some pc =>
    match pc with
    | .callExpr _ (.paramListNode pl) => filterCallCandidates pl items
    | _ => some items

/-- `e.cast(TypeDecl)` on an environment entry's node. -/
def asTypeDecl : DeclNode → Option TypeDecl
  | .typeDecl t => some t
  | _ => none

/-- `BaseId.designated_type`:
`Self.entities.map(lambda e: e.cast(TypeDecl)).filter(lambda e:
Not(e.is_null)).at(0)` — the entities are `env_elements` stripped of their
metadata, so a fault of `env_elements` propagates; the inner `Option` is
the nullable result node. -/
def BaseId.designated_type (tok : String) (anc : List (ChildSlot × ExprNode))
    (items : List EnvElement) : Option (Option TypeDecl) :=
  (BaseId.env_elements tok anc items).map (fun ents =>
    (((ents.map (fun e => asTypeDecl e.el)).filter (fun t => t.isSome)).headD none))

/-- Index of the first list element satisfying `p` (specification-side
companion of `List.find?`, used to speak about *which* formal an actual
argument matches). -/
def findIndexOf {α : Type} (p : α → Bool) : List α → Option Nat
  | [] => none
  | a :: as => if p a then some 0 else (findIndexOf p as).map (· + 1)

/-- The formal (as an index into `typed_param_list`) matched by the `i`-th
actual argument, mirroring the matching rule of `match_param_list`: a
positional argument matches the formal at its own position, a named
argument the first formal carrying the designator's name. -/
def matched_formal_index (s : SubprogramSpec) (pl : ParamList) (i : Nat) :
    Option Nat :=
  match pl.params.get? i with
  | none => none
  | some pa =>
    match pa.designator with
    | none => if i < s.typed_param_list.length then some i else none
    | some (Designator.identifier id) =>
      findIndexOf (fun p => p.name == id) s.typed_param_list
    | some Designator.othersDesignator => none

/-- Whether formal `j` is matched by some actual argument of `pl`. -/
def formal_matched_by_some_actual (s : SubprogramSpec) (pl : ParamList) (j : Nat) :
    Bool :=
  (List.range pl.params.length).any (fun i => matched_formal_index s pl i == some j)

/-- Whether formal `j` has a default value (out-of-range indices count as
optional: they constrain nothing). -/
def optional_formal (s : SubprogramSpec) (j : Nat) : Bool :=
  match s.typed_param_list.get? j with
  | some p => p.profile.default.isSome
  | none => true

/-- Sample spec with two mandatory formals `A`, `B` and one optional
(defaulted) formal `C`. -/
def spec2m1o : SubprogramSpec :=
  ⟨[⟨["A"], none⟩, ⟨["B"], none⟩, ⟨["C"], some ()⟩]⟩

/-- A positional actual argument (no designator). -/
def positionalArg : ParamAssoc := ⟨none⟩

/-- Sample spec with two mandatory formals `A` and `B` and no optional
formal. -/
def specAB : SubprogramSpec := ⟨[⟨["A"], none⟩, ⟨["B"], none⟩]⟩

/-- Actual list `(x, A => y)`: one positional argument followed by a named
argument whose designator names the first formal — both match formal 0. -/
def plDupA : ParamList := ⟨[⟨none⟩, ⟨some (Designator.identifier "A")⟩]⟩

/-- Actual list of two positional arguments. -/
def plTwoPositional : ParamList := ⟨[⟨none⟩, ⟨none⟩]⟩

/-- A subprogram spec with a single mandatory formal `X`. -/
def spec1m : SubprogramSpec := ⟨[⟨["X"], none⟩]⟩

/-- An environment entry for a subprogram declaration over `spec1m`,
reached without dot notation. -/
def entrySub1m : EnvElement := ⟨.basicSubprogramDecl spec1m, ⟨false, false⟩⟩

/-- A two-dimensional array object declaration. -/
def arrayDecl2d : ObjectDecl :=
  ⟨["Arr"], .arrayTypeDefNode (.constrainedArrayIndices [(), ()])⟩

/-- An environment entry for `arrayDecl2d`. -/
def entryArr2d : EnvElement := ⟨.objectDecl arrayDecl2d, ⟨false, false⟩⟩

/-- An actual list of `k` positional arguments. -/
def positionalList (k : Nat) : ParamList := ⟨List.replicate k ⟨none⟩⟩

/-- Ancestor context of the identifier `Arr` in `Arr(args)`: the identifier
sits in the name slot of the `CallExpr` whose suffix is the given
`ParamList`. -/
def callHeadCtx (tok : String) (pl : ParamList) : List (ChildSlot × ExprNode) :=
  [(ChildSlot.callName, ExprNode.callExpr (ExprNode.baseId tok) (ExprNode.paramListNode pl))]

/-- An environment entry for a non-type, non-subprogram declaration. -/
def entryOtherDecl : EnvElement := ⟨.otherBasicDecl, ⟨false, false⟩⟩

/-- A full type declaration entry (an enum type named `T`). -/
def entryTypeT : EnvElement :=
  ⟨.typeDecl (.fullTypeDecl "T" (.enumTypeDef ["Red", "Green"])), ⟨false, false⟩⟩

theorem isMatching_iff (s : SubprogramSpec) (pl : ParamList) :
    s.is_matching_param_list pl = true ↔
      (pl.params.length ≤ s.nb_max_params ∧
       (∀ m ∈ s.match_param_list pl, m.has_matched = true) ∧
       ((s.match_param_list pl).filter (fun m => !m.is_formal_opt)).length =
         s.nb_min_params) := by
  unfold SubprogramSpec.is_matching_param_list
  simp only [Bool.and_eq_true, List.all_eq_true, decide_eq_true_eq, beq_iff_eq]
  tauto

/-- Claim C1: `is_matching_param_list` accepts exactly when the actual count
does not exceed `nb_max_params`, every actual matched some formal, and the
number of match records against a mandatory (non-optional) formal equals
`nb_min_params` exactly. -/
theorem c1_is_matching_param_list_characterization (s : SubprogramSpec)
    (pl : ParamList) :
    s.is_matching_param_list pl = true ↔
      (pl.params.length ≤ s.nb_max_params ∧
       (∀ m ∈ s.match_param_list pl, m.has_matched = true) ∧
       ((s.match_param_list pl).filter
           (fun m => m.has_matched && !m.is_formal_opt)).length =
         s.nb_min_params) := by
  rw [isMatching_iff]
  constructor
  · rintro ⟨h1, h2, h3⟩
    refine ⟨h1, h2, ?_⟩
    rw [← h3]
    congr 1
    exact List.filter_congr (fun m hm => by rw [h2 m hm, Bool.true_and])
  · rintro ⟨h1, h2, h3⟩
    refine ⟨h1, h2, ?_⟩
    rw [← h3]
    congr 1
    exact List.filter_congr (fun m hm => by rw [h2 m hm, Bool.true_and])

/-- Claim C4: with two mandatory and one optional formal, one positional
argument is rejected, two and three positional arguments are accepted, and
a single named argument designating the optional formal is rejected. -/
theorem c4_arity_filtering_2_mandatory_1_optional :
    spec2m1o.is_matching_param_list ⟨[positionalArg]⟩ = false ∧
    spec2m1o.is_matching_param_list ⟨[positionalArg, positionalArg]⟩ = true ∧
    spec2m1o.is_matching_param_list
      ⟨[positionalArg, positionalArg, positionalArg]⟩ = true ∧
    spec2m1o.is_matching_param_list
      ⟨[⟨some (Designator.identifier "C")⟩]⟩ = false := by
  decide

/-- Claim C8: `IncompleteTypeDef` and `PrivateTypeDef` inherit the base
`array_ndims` default of 0 (no full-view resolution is attempted). -/
theorem c8_incomplete_private_array_ndims_zero :
    (∀ is_tagged, TypeDef.array_ndims (TypeDef.incompleteTypeDef is_tagged) = 0) ∧
    (∀ a t l, TypeDef.array_ndims (TypeDef.privateTypeDef a t l) = 0) :=
  ⟨fun _ => rfl, fun _ _ _ => rfl⟩

/-- Claim C7: `ObjectDecl.array_ndims` hard-faults exactly when `type_expr`
is neither an `ArrayTypeDef` nor a `TypeExpression`; on an `ArrayTypeDef`
it returns the index list's dimension count, on a `TypeExpression` that
expression's `array_ndims`. -/
theorem c7_objectdecl_array_ndims_fault (o : ObjectDecl) :
    (o.array_ndims = none ↔ o.type_expr = ObjectDeclTypeExpr.otherKindNode) ∧
    (∀ indices, o.type_expr = ObjectDeclTypeExpr.arrayTypeDefNode indices →
      o.array_ndims = some indices.ndims) ∧
    (∀ te, o.type_expr = ObjectDeclTypeExpr.typeExpressionNode te →
      o.array_ndims = some te.array_ndims) := by
  obtain ⟨ids, texpr⟩ := o
  cases texpr <;> simp [ObjectDecl.array_ndims]

theorem nb_min_params_cons (pf : ParameterProfile) (ps : List ParameterProfile) :
    SubprogramSpec.nb_min_params ⟨pf :: ps⟩ =
      (if pf.default.isNone then pf.ids.length else 0) +
        SubprogramSpec.nb_min_params ⟨ps⟩ := by
  unfold SubprogramSpec.nb_min_params SubprogramSpec.typed_param_list
  rw [List.flatMap_cons, List.filter_append, List.length_append]
  congr 1
  cases h : pf.default with
  | none =>
    simp [ParameterProfile.is_mandatory, List.filter_map, Function.comp, h]
  | some u =>
    simp [ParameterProfile.is_mandatory, List.filter_map, Function.comp, h]

/-- Claim C9: a profile with `k` identifiers contributes `k` formals, so
`nb_max_params` is the total identifier count, `nb_min_params` the
identifier count of the profiles without default, and a formal is
mandatory exactly when its profile's default is null. -/
theorem c9_typed_param_list_flattening (s : SubprogramSpec) :
    s.nb_max_params = (s.params.map (fun pf => pf.ids.length)).sum ∧
    s.nb_min_params =
      ((s.params.filter (fun pf => pf.default.isNone)).map
        (fun pf => pf.ids.length)).sum ∧
    (∀ sp ∈ s.typed_param_list,
      sp.profile.is_mandatory = true ↔ sp.profile.default = none) := by
  refine ⟨?_, ?_, ?_⟩
  · simp [SubprogramSpec.nb_max_params, SubprogramSpec.typed_param_list,
      List.length_flatMap, Function.comp_def, List.length_map]
  · obtain ⟨ps⟩ := s
    induction ps with
    | nil => rfl
    | cons pf rest ih =>
      rw [nb_min_params_cons, ih, List.filter_cons]
      cases h : pf.default.isNone <;> simp [h]
  · intro sp _
    simp [ParameterProfile.is_mandatory, Option.isNone_iff_eq_none]

theorem walk_at_callexpr (nm sfx : ExprNode) (anc : List (ChildSlot × ExprNode)) :
    parent_callexpr_walk (ExprNode.callExpr nm sfx) anc =
      some (ExprNode.callExpr nm sfx) := by
  cases anc <;> rfl

/-- Claim C3: call-head detection.  The last component of a dotted chain
directly naming a `CallExpr` (and an identifier that is itself the call's
name) reaches the `CallExpr`; an identifier on the prefix side of a dotted
node, or whose dotted parent is itself a prefix of a larger chain, yields
null; and an ancestor of any other kind stops the walk with null. -/
theorem c3_parent_callexpr_call_head_detection :
    (∀ (s : String) (l args : ExprNode) (rest : List (ChildSlot × ExprNode)),
      BaseId.parent_callexpr s
          ((ChildSlot.dotRight, ExprNode.dottedName l (ExprNode.baseId s)) ::
           (ChildSlot.callName,
             ExprNode.callExpr (ExprNode.dottedName l (ExprNode.baseId s)) args) ::
           rest) =
        some (ExprNode.callExpr (ExprNode.dottedName l (ExprNode.baseId s)) args)) ∧
    (∀ (s : String) (args : ExprNode) (rest : List (ChildSlot × ExprNode)),
      BaseId.parent_callexpr s
          ((ChildSlot.callName, ExprNode.callExpr (ExprNode.baseId s) args) :: rest) =
        some (ExprNode.callExpr (ExprNode.baseId s) args)) ∧
    (∀ (s : String) (p : ExprNode) (rest : List (ChildSlot × ExprNode)),
      BaseId.parent_callexpr s ((ChildSlot.dotLeft, p) :: rest) = none) ∧
    (∀ (s : String) (l q : ExprNode) (rest : List (ChildSlot × ExprNode)),
      BaseId.parent_callexpr s
          ((ChildSlot.dotRight, ExprNode.dottedName l (ExprNode.baseId s)) ::
           (ChildSlot.dotLeft, q) :: rest) = none) ∧
    (∀ (s : String) (slot : ChildSlot) (p : ExprNode)
        (rest : List (ChildSlot × ExprNode)),
      isCallExprNode p = false → isDottedOrBaseId p = false →
      BaseId.parent_callexpr s ((slot, p) :: rest) = none) := by
  refine ⟨fun s l args rest => walk_at_callexpr _ _ rest,
    fun s args rest => walk_at_callexpr _ _ rest,
    fun s p rest => rfl, fun s l q rest => rfl, fun s slot p rest h1 h2 => ?_⟩
  cases p with
  | baseId t => simp [isDottedOrBaseId] at h2
  | dottedName a b => simp [isDottedOrBaseId] at h2
  | callExpr a b => simp [isCallExprNode] at h1
  | paramListNode q => cases slot <;> rfl
  | otherNode k => cases slot <;> rfl

/-- Claim C2: for an identifier that heads no call, the environment
candidates are narrowed by dropping every subprogram declaration or body
with mandatory parameters, unless it was reached through dot notation and
has exactly one mandatory parameter; non-subprogram candidates survive. -/
theorem c2_env_elements_bare_reference_filter (tok : String)
    (anc : List (ChildSlot × ExprNode)) (items l : List EnvElement)
    (hpc : BaseId.parent_callexpr tok anc = none)
    (henv : BaseId.env_elements tok anc items = some l) (e : EnvElement) :
    (∀ ss, e.el = DeclNode.basicSubprogramDecl ss ∨
        e.el = DeclNode.subprogramBody ss →
      (e ∈ l ↔ e ∈ items ∧
        (ss.nb_min_params = 0 ∨
          (e.MD.dottable_subprogram = true ∧ ss.nb_min_params = 1)))) ∧
    (e.el.subpSpecOf = none → (e ∈ l ↔ e ∈ items)) := by
  have hl : l = items.filter noCallFilter := by
    unfold BaseId.env_elements at henv
    rw [hpc] at henv
    exact (Option.some.inj henv).symm
  subst hl
  constructor
  · rintro ss (h | h) <;>
    · rw [List.mem_filter]
      constructor
      · rintro ⟨hmem, hkeep⟩
        refine ⟨hmem, ?_⟩
        simp only [noCallFilter, h, Bool.or_eq_true, Bool.and_eq_true,
          beq_iff_eq] at hkeep
        tauto
      · rintro ⟨hmem, hcond⟩
        refine ⟨hmem, ?_⟩
        simp only [noCallFilter, h, Bool.or_eq_true, Bool.and_eq_true,
          beq_iff_eq]
        tauto
  · intro h
    rw [List.mem_filter]
    have hkeep : noCallFilter e = true := by
      unfold noCallFilter
      cases he : e.el <;>
        first
        | rfl
        | (rw [he] at h; simp [DeclNode.subpSpecOf] at h)
    simp [hkeep]

theorem filterCall_mem {pl : ParamList} :
    ∀ {items l : List EnvElement}, filterCallCandidates pl items = some l →
      ∀ (e : EnvElement) (b : Bool), callCandidateKeep pl e = some b →
        (e ∈ l ↔ e ∈ items ∧ b = true) := by
  intro items
  induction items with
  | nil =>
    intro l h e b _
    simp only [filterCallCandidates] at h
    simp [← Option.some.inj h]
  | cons x rest ih =>
    intro l h e b hkeep
    simp only [filterCallCandidates] at h
    cases hx : callCandidateKeep pl x with
    | none => rw [hx] at h; exact absurd h (by simp)
    | some bx =>
      rw [hx] at h
      cases hr : filterCallCandidates pl rest with
      | none => rw [hr] at h; exact absurd h (by simp)
      | some r =>
        rw [hr] at h
        have hl : l = if bx then x :: r else r := (Option.some.inj h).symm
        subst hl
        have ihr := ih hr e b hkeep
        by_cases hex : e = x
        · subst hex
          have hbb : b = bx := Option.some.inj (hkeep.symm.trans hx)
          subst hbb
          cases b with
          | true => simp [List.mem_cons]
          | false => simp [ihr]
        · cases bx <;>
            simp_all [List.mem_cons, hex]

/-- Claim C5: for a call head whose `CallExpr` suffix is a `ParamList`, an
`ObjectDecl` candidate (array-like entity) survives filtering exactly when
its `array_ndims` equals the number of actual arguments. -/
theorem c5_array_dimensionality_filter (tok : String)
    (anc : List (ChildSlot × ExprNode)) (nm : ExprNode) (pl : ParamList)
    (items l : List EnvElement)
    (hpc : BaseId.parent_callexpr tok anc =
      some (ExprNode.callExpr nm (ExprNode.paramListNode pl)))
    (henv : BaseId.env_elements tok anc items = some l)
    (e : EnvElement) (o : ObjectDecl) (he : e.el = DeclNode.objectDecl o)
    (n : Nat) (hn : o.array_ndims = some n) :
    e ∈ l ↔ e ∈ items ∧ n = pl.params.length := by
  have hfc : filterCallCandidates pl items = some l := by
    unfold BaseId.env_elements at henv
    rw [hpc] at henv
    exact henv
  have hkeep : callCandidateKeep pl e = some (n == pl.params.length) := by
    simp [callCandidateKeep, he, hn]
  rw [filterCall_mem hfc e (n == pl.params.length) hkeep, beq_iff_eq]

/-- Witness for C2: a bare reference `Foo` (empty ancestor context, hence
no call) to a subprogram with one mandatory parameter, not reached through
dot notation, is filtered out: the filtered list is empty. -/
theorem c2_witness_bare_reference_dropped :
    entrySub1m ∈ ([] : List EnvElement) ↔
      entrySub1m ∈ [entrySub1m] ∧
        (spec1m.nb_min_params = 0 ∨
          (entrySub1m.MD.dottable_subprogram = true ∧ spec1m.nb_min_params = 1)) :=
  (c2_env_elements_bare_reference_filter "Foo" [] [entrySub1m] [] rfl rfl
    entrySub1m).1 spec1m (Or.inl rfl)

/-- Witness for C5: a 2-dimensional array declaration survives the filter
for `Arr(1,2)` but not for `Arr(1)` or `Arr(1,2,3)`. -/
theorem c5_witness_two_dimensional_array :
    (entryArr2d ∈ [entryArr2d] ↔
      entryArr2d ∈ [entryArr2d] ∧ 2 = (positionalList 2).params.length) ∧
    (entryArr2d ∈ ([] : List EnvElement) ↔
      entryArr2d ∈ [entryArr2d] ∧ 2 = (positionalList 1).params.length) ∧
    (entryArr2d ∈ ([] : List EnvElement) ↔
      entryArr2d ∈ [entryArr2d] ∧ 2 = (positionalList 3).params.length) :=
  ⟨c5_array_dimensionality_filter "Arr" (callHeadCtx "Arr" (positionalList 2))
      (ExprNode.baseId "Arr") (positionalList 2) [entryArr2d] [entryArr2d]
      rfl rfl entryArr2d arrayDecl2d rfl 2 rfl,
   c5_array_dimensionality_filter "Arr" (callHeadCtx "Arr" (positionalList 1))
      (ExprNode.baseId "Arr") (positionalList 1) [entryArr2d] []
      rfl rfl entryArr2d arrayDecl2d rfl 2 rfl,
   c5_array_dimensionality_filter "Arr" (callHeadCtx "Arr" (positionalList 3))
      (ExprNode.baseId "Arr") (positionalList 3) [entryArr2d] []
      rfl rfl entryArr2d arrayDecl2d rfl 2 rfl⟩

theorem headD_filter_isSome_eq_findSome? {α β : Type} (F : α → Option β) :
    ∀ l : List α,
      ((l.map F).filter (fun t => t.isSome)).headD none = l.findSome? F := by
  intro l
  induction l with
  | nil => rfl
  | cons a as ih =>
    rw [List.map_cons, List.filter_cons]
    cases hFa : F a with
    | some b => simp [List.headD, List.findSome?_cons, hFa]
    | none =>
      simp only [hFa, Option.isSome_none]
      rw [if_neg (by decide), ih, List.findSome?_cons, hFa]

theorem findSome?_filter_of_imp {α β : Type} (p : α → Bool) (F : α → Option β)
    (h : ∀ e, (F e).isSome → p e = true) :
    ∀ l : List α, (l.filter p).findSome? F = l.findSome? F := by
  intro l
  induction l with
  | nil => rfl
  | cons a as ih =>
    cases hpa : p a with
    | true => simp [List.filter_cons, hpa, List.findSome?_cons, ih]
    | false =>
      have hFa : F a = none := by
        cases hFa : F a with
        | none => rfl
        | some b => rw [h a (by simp [hFa])] at hpa; exact absurd hpa (by simp)
      simp [List.filter_cons, hpa, List.findSome?_cons, hFa, ih]

theorem findSome?_filterCall {β : Type} {pl : ParamList} {F : EnvElement → Option β}
    (h : ∀ e, (F e).isSome → callCandidateKeep pl e = some true) :
    ∀ {items l : List EnvElement}, filterCallCandidates pl items = some l →
      l.findSome? F = items.findSome? F := by
  intro items
  induction items with
  | nil =>
    intro l hfc
    simp only [filterCallCandidates] at hfc
    rw [← Option.some.inj hfc]
  | cons x rest ih =>
    intro l hfc
    simp only [filterCallCandidates] at hfc
    cases hx : callCandidateKeep pl x with
    | none => rw [hx] at hfc; exact absurd hfc (by simp)
    | some bx =>
      rw [hx] at hfc
      cases hr : filterCallCandidates pl rest with
      | none => rw [hr] at hfc; exact absurd hfc (by simp)
      | some r =>
        rw [hr] at hfc
        have hl : l = if bx then x :: r else r := (Option.some.inj hfc).symm
        subst hl
        cases hFx : F x with
        | some b =>
          have : callCandidateKeep pl x = some true := h x (by simp [hFx])
          have hbx : bx = true := Option.some.inj (hx.symm.trans this)
          subst hbx
          simp [List.findSome?_cons, hFx]
        | none =>
          cases bx <;> simp [List.findSome?_cons, hFx, ih hr]

/-- Claim C10: `BaseId.designated_type` returns (when `env_elements` does
not fault) the first candidate in innermost-to-outermost lookup order that
is a `TypeDecl` — silently skipping earlier non-type candidates even when
they shadow the type — and null when no candidate is a type. -/
theorem c10_designated_type_first_typedecl (tok : String)
    (anc : List (ChildSlot × ExprNode)) (items ents : List EnvElement)
    (henv : BaseId.env_elements tok anc items = some ents) :
    BaseId.designated_type tok anc items =
      some (items.findSome? (fun e => asTypeDecl e.el)) := by
  unfold BaseId.designated_type
  rw [henv, Option.map_some']
  congr 1
  rw [headD_filter_isSome_eq_findSome?]
  unfold BaseId.env_elements at henv
  have hkeepType : ∀ e : EnvElement, (asTypeDecl e.el).isSome →
      noCallFilter e = true := by
    intro e hse
    cases he : e.el <;> simp_all [asTypeDecl, noCallFilter]
  cases hpc : BaseId.parent_callexpr tok anc with
  | none =>
    rw [hpc] at henv
    rw [← Option.some.inj henv]
    exact findSome?_filter_of_imp noCallFilter _ hkeepType items
  | some pc =>
    rw [hpc] at henv
    cases pc with
    | callExpr nm sfx =>
      cases sfx with
      | paramListNode pl =>
        refine findSome?_filterCall ?_ henv
        intro e hse
        cases he : e.el <;> simp_all [asTypeDecl, callCandidateKeep]
      | baseId t => rw [← Option.some.inj henv]
      | dottedName a b => rw [← Option.some.inj henv]
      | callExpr a b => rw [← Option.some.inj henv]
      | otherNode k => rw [← Option.some.inj henv]
    | baseId t => rw [← Option.some.inj henv]
    | dottedName a b => rw [← Option.some.inj henv]
    | paramListNode pl => rw [← Option.some.inj henv]
    | otherNode k => rw [← Option.some.inj henv]

/-- Witness for C10: with a non-type declaration shadowing a type
declaration, `designated_type` skips the former and returns the type. -/
theorem c10_witness_shadowed_type :
    BaseId.designated_type "T" [] [entryOtherDecl, entryTypeT] =
      some (([entryOtherDecl, entryTypeT] : List EnvElement).findSome?
        (fun e => asTypeDecl e.el)) :=
  c10_designated_type_first_typedecl "T" [] [entryOtherDecl, entryTypeT]
    [entryOtherDecl, entryTypeT] rfl

theorem findIndexOf_lt_length {α : Type} (p : α → Bool) :
    ∀ {l : List α} {j : Nat}, findIndexOf p l = some j → j < l.length := by
  intro l
  induction l with
  | nil => intro j h; exact absurd h (by simp [findIndexOf])
  | cons a as ih =>
    intro j h
    unfold findIndexOf at h
    by_cases hpa : p a = true
    · rw [if_pos hpa] at h
      rw [← Option.some.inj h]
      simp
    · rw [if_neg hpa] at h
      cases has : findIndexOf p as with
      | none => rw [has] at h; exact absurd h (by simp)
      | some j0 =>
        rw [has] at h
        have hj : j = j0 + 1 := (Option.some.inj h).symm
        subst hj
        have := ih has
        simp only [List.length_cons]
        omega

theorem findIndexOf_bind_get? {α : Type} (p : α → Bool) :
    ∀ l : List α, (findIndexOf p l).bind (fun j => l.get? j) = l.find? p := by
  intro l
  induction l with
  | nil => rfl
  | cons a as ih =>
    unfold findIndexOf
    by_cases hpa : p a = true
    · rw [if_pos hpa, List.find?_cons_of_pos _ hpa]
      rfl
    · rw [if_neg hpa, List.find?_cons_of_neg _ (by simp_all)]
      rw [← ih]
      cases has : findIndexOf p as <;> rfl

theorem match_param_list_get?_eq (s : SubprogramSpec) (pl : ParamList) (i : Nat)
    (pa : ParamAssoc) (hpa : pl.params.get? i = some pa) :
    (s.match_param_list pl).get? i = some
      (match pa.designator with
       | none =>
         match s.typed_param_list.get? i with
         | some sp => ⟨true, !sp.profile.default.isNone⟩
         | none => ⟨false, false⟩
       | some (Designator.identifier id) =>
         match s.typed_param_list.find? (fun p => p.name == id) with
         | some p => ⟨true, !p.profile.default.isNone⟩
         | none => ⟨false, false⟩
       | some Designator.othersDesignator => ⟨false, false⟩) := by
  unfold SubprogramSpec.match_param_list
  rw [List.get?_eq_getElem?, List.getElem?_map, List.getElem?_enum,
    ← List.get?_eq_getElem?, hpa]
  rfl

theorem match_entry_matched (s : SubprogramSpec) (pl : ParamList) (i j : Nat)
    (hj : matched_formal_index s pl i = some j) :
    ∃ p, s.typed_param_list.get? j = some p ∧
      (s.match_param_list pl).get? i = some ⟨true, p.profile.default.isSome⟩ := by
  unfold matched_formal_index at hj
  cases hpa : pl.params.get? i with
  | none => simp only [hpa] at hj; exact absurd hj (by simp)
  | some pa =>
    simp only [hpa] at hj
    have hml := match_param_list_get?_eq s pl i pa hpa
    cases hd : pa.designator with
    | none =>
      simp only [hd] at hj hml
      by_cases hi : i < s.typed_param_list.length
      · rw [if_pos hi] at hj
        have hij : i = j := Option.some.inj hj
        subst hij
        cases hsp : s.typed_param_list.get? i with
        | none =>
          rw [List.get?_eq_none] at hsp
          omega
        | some sp =>
          refine ⟨sp, rfl, ?_⟩
          simp only [hsp] at hml
          rw [hml]
          cases hdef : sp.profile.default <;> simp [hdef]
      · rw [if_neg hi] at hj
        exact absurd hj (by simp)
    | some d =>
      cases d with
      | identifier id =>
        simp only [hd] at hj hml
        cases hfind : s.typed_param_list.find? (fun p => p.name == id) with
        | none =>
          exfalso
          have hbind := findIndexOf_bind_get? (fun p => p.name == id)
            s.typed_param_list
          rw [hj, hfind] at hbind
          have hget : s.typed_param_list.get? j = none := hbind
          have hlt := findIndexOf_lt_length _ hj
          rw [List.get?_eq_none] at hget
          omega
        | some p =>
          have hbind := findIndexOf_bind_get? (fun q => q.name == id)
            s.typed_param_list
          rw [hj, hfind] at hbind
          have hget : s.typed_param_list.get? j = some p := hbind
          refine ⟨p, hget, ?_⟩
          simp only [hfind] at hml
          rw [hml]
          cases hdef : p.profile.default <;> simp [hdef]
      | othersDesignator =>
        simp only [hd] at hj
        exact absurd hj (by simp)

theorem match_entry_unmatched (s : SubprogramSpec) (pl : ParamList) (i : Nat)
    (pa : ParamAssoc) (hpa : pl.params.get? i = some pa)
    (hj : matched_formal_index s pl i = none) :
    (s.match_param_list pl).get? i = some ⟨false, false⟩ := by
  unfold matched_formal_index at hj
  simp only [hpa] at hj
  have hml := match_param_list_get?_eq s pl i pa hpa
  cases hd : pa.designator with
  | none =>
    simp only [hd] at hj hml
    by_cases hi : i < s.typed_param_list.length
    · rw [if_pos hi] at hj; exact absurd hj (by simp)
    · cases hsp : s.typed_param_list.get? i with
      | none => simp only [hsp] at hml; exact hml
      | some sp =>
        exfalso
        apply hi
        cases List.get?_eq_some.mp hsp with
        | intro h _ => exact h
  | some d =>
    cases d with
    | identifier id =>
      simp only [hd] at hj hml
      cases hfind : s.typed_param_list.find? (fun p => p.name == id) with
      | none => simp only [hfind] at hml; exact hml
      | some p =>
        exfalso
        have hbind := findIndexOf_bind_get? (fun q => q.name == id)
          s.typed_param_list
        rw [hj, hfind] at hbind
        have hget : (none : Option Nat).bind
            (fun k => s.typed_param_list.get? k) = some p := hbind
        exact absurd hget (by simp)
    | othersDesignator =>
      simp only [hd] at hml
      exact hml

theorem match_param_list_length (s : SubprogramSpec) (pl : ParamList) :
    (s.match_param_list pl).length = pl.params.length := by
  unfold SubprogramSpec.match_param_list
  rw [List.length_map, List.enum_length]

theorem countP_eq_countP_range {α : Type} (p : α → Bool) :
    ∀ l : List α,
      l.countP p = (List.range l.length).countP (fun i =>
        match l.get? i with | some a => p a | none => false) := by
  intro l
  induction l with
  | nil => rfl
  | cons a as ih =>
    rw [List.countP_cons, List.length_cons, List.range_succ_eq_map,
      List.countP_cons, List.countP_map]
    have hcomp : ((fun i =>
        match (a :: as).get? i with | some x => p x | none => false) ∘ Nat.succ) =
        (fun i => match as.get? i with | some x => p x | none => false) := rfl
    rw [hcomp, ← ih]
    rfl

theorem matched_formal_index_lt (s : SubprogramSpec) (pl : ParamList) (i j : Nat)
    (h : matched_formal_index s pl i = some j) : j < s.nb_max_params := by
  obtain ⟨p, hget, _⟩ := match_entry_matched s pl i j h
  obtain ⟨hlt, _⟩ := List.get?_eq_some.mp hget
  exact hlt

/-- Counterexample for C6 as stated: `specAB` (two mandatory formals) and
the actual list `(x, A => y)` — the positional argument and the named
argument both match formal 0, `is_matching_param_list` accepts, yet formal
1 (`B`) is mandatory and matched by no actual argument. -/
theorem c6_counterexample_duplicate_match :
    ¬ (specAB.is_matching_param_list plDupA = true →
        ∀ j, j < specAB.nb_max_params →
          formal_matched_by_some_actual specAB plDupA j = false →
          optional_formal specAB j = true) := by
  decide

/-- Claim C6 (amended): for every `SubprogramSpec` and actual list accepted
by `is_matching_param_list` in which no two distinct actual arguments match
the same formal, every formal matched by no actual argument is optional. -/
theorem c6_amended_unmatched_formals_optional (s : SubprogramSpec)
    (pl : ParamList) (hacc : s.is_matching_param_list pl = true)
    (hinj : ∀ i1 i2 j, matched_formal_index s pl i1 = some j →
        matched_formal_index s pl i2 = some j → i1 = i2) :
    ∀ j, j < s.nb_max_params → formal_matched_by_some_actual s pl j = false →
      optional_formal s j = true := by
  obtain ⟨hlen, hall, hcount⟩ := (isMatching_iff s pl).mp hacc
  intro j hj hunmatched
  by_contra hoptne
  have hopt : optional_formal s j = false := by
    cases h : optional_formal s j
    · rfl
    · exact absurd h hoptne
  have hmatched : ∀ i, i < pl.params.length →
      ∃ k, matched_formal_index s pl i = some k := by
    intro i hi
    cases hk : matched_formal_index s pl i with
    | some k => exact ⟨k, rfl⟩
    | none =>
      exfalso
      obtain ⟨pa, hpa⟩ : ∃ pa, pl.params.get? i = some pa := by
        cases hpa : pl.params.get? i with
        | some pa => exact ⟨pa, rfl⟩
        | none => rw [List.get?_eq_none] at hpa; omega
      have hml := match_entry_unmatched s pl i pa hpa hk
      have := hall _ (List.get?_mem hml)
      simp at this
  have hBfilter :
      ((s.match_param_list pl).filter (fun m => !m.is_formal_opt)).length =
        ((List.range pl.params.length).filterMap
            (fun i => matched_formal_index s pl i)).countP
          (fun k => !optional_formal s k) := by
    rw [← List.countP_eq_length_filter, List.countP_filterMap,
      countP_eq_countP_range, match_param_list_length]
    refine List.countP_congr ?_
    intro i hiR
    have hi : i < pl.params.length := List.mem_range.mp hiR
    obtain ⟨k, hk⟩ := hmatched i hi
    obtain ⟨p, hget, hml⟩ := match_entry_matched s pl i k hk
    rw [hml, hk]
    have hoptk : optional_formal s k = p.profile.default.isSome := by
      unfold optional_formal
      rw [hget]
    simp [hoptk]
  have hCcount : s.nb_min_params =
      ((List.range s.nb_max_params).filter
        (fun k => !optional_formal s k)).length := by
    rw [← List.countP_eq_length_filter]
    have h1 : s.nb_min_params =
        s.typed_param_list.countP (fun p => p.profile.is_mandatory) := by
      unfold SubprogramSpec.nb_min_params
      rw [← List.countP_eq_length_filter]
    rw [h1, countP_eq_countP_range]
    refine List.countP_congr ?_
    intro k _
    cases hget : s.typed_param_list.get? k with
    | some p =>
      have hoptk : optional_formal s k = p.profile.default.isSome := by
        unfold optional_formal
        rw [hget]
      rw [hoptk]
      unfold ParameterProfile.is_mandatory
      cases hdef : p.profile.default <;> simp [hdef]
    | none =>
      have hoptk : optional_formal s k = true := by
        unfold optional_formal
        rw [hget]
      rw [hoptk]
      simp
  have hJnodup : ((List.range pl.params.length).filterMap
      (fun i => matched_formal_index s pl i)).Nodup := by
    refine List.Nodup.filterMap ?_ (List.nodup_range _)
    intro a a' b hb hb'
    exact hinj a a' b (Option.mem_def.mp hb) (Option.mem_def.mp hb')
  have hJ'nodup : (((List.range pl.params.length).filterMap
      (fun i => matched_formal_index s pl i)).filter
        (fun k => !optional_formal s k)).Nodup :=
    hJnodup.filter _
  have hJ'sub : (((List.range pl.params.length).filterMap
      (fun i => matched_formal_index s pl i)).filter
        (fun k => !optional_formal s k)) ⊆
      ((List.range s.nb_max_params).filter (fun k => !optional_formal s k)) := by
    intro k hk
    rw [List.mem_filter] at hk ⊢
    obtain ⟨hkJ, hkopt⟩ := hk
    obtain ⟨i, _, hFi⟩ := List.mem_filterMap.mp hkJ
    exact ⟨List.mem_range.mpr (matched_formal_index_lt s pl i k hFi), hkopt⟩
  have hJ'len : (((List.range pl.params.length).filterMap
      (fun i => matched_formal_index s pl i)).filter
        (fun k => !optional_formal s k)).length =
      ((List.range s.nb_max_params).filter
        (fun k => !optional_formal s k)).length := by
    rw [← List.countP_eq_length_filter, ← hBfilter, hcount, hCcount]
  have hperm := (hJ'nodup.subperm hJ'sub).perm_of_length_le (le_of_eq hJ'len.symm)
  have hjM : j ∈ (List.range s.nb_max_params).filter
      (fun k => !optional_formal s k) := by
    rw [List.mem_filter]
    exact ⟨List.mem_range.mpr hj, by rw [hopt]; rfl⟩
  have hjJ' := hperm.mem_iff.mpr hjM
  rw [List.mem_filter] at hjJ'
  obtain ⟨i, hiR, hFi⟩ := List.mem_filterMap.mp hjJ'.1
  have hmatchedj : formal_matched_by_some_actual s pl j = true := by
    unfold formal_matched_by_some_actual
    rw [List.any_eq_true]
    exact ⟨i, hiR, by rw [hFi]; exact beq_self_eq_true _⟩
  rw [hunmatched] at hmatchedj
  exact absurd hmatchedj (by simp)

theorem c6_injectivity_two_positional :
    ∀ i1 i2 j, matched_formal_index spec2m1o plTwoPositional i1 = some j →
      matched_formal_index spec2m1o plTwoPositional i2 = some j → i1 = i2 := by
  have key : ∀ i j, matched_formal_index spec2m1o plTwoPositional i = some j →
      i = j := by
    intro i j h
    match i with
    | 0 => exact Option.some.inj h
    | 1 => exact Option.some.inj h
    | (k + 2) =>
      exfalso
      have hnone : plTwoPositional.params[k + 2]? = none := by
        show ([⟨none⟩, ⟨none⟩] : List ParamAssoc)[k + 2]? = none
        rw [List.getElem?_cons_succ, List.getElem?_cons_succ, List.getElem?_nil]
      unfold matched_formal_index at h
      rw [List.get?_eq_getElem?, hnone] at h
      simp at h
  intro i1 i2 j h1 h2
  rw [key i1 j h1, key i2 j h2]

/-- Witness for the amended C6: `spec2m1o` with two positional arguments is
accepted, the two actuals match distinct formals 0 and 1, formal 2 is
matched by no actual, and it is indeed the optional one. -/
theorem c6_amended_witness : optional_formal spec2m1o 2 = true :=
  c6_amended_unmatched_formals_optional spec2m1o plTwoPositional (by decide)
    c6_injectivity_two_positional 2 (by decide) (by decide)

end AdaResolve
